import Mathlib

/-!
Shallow embedding of the HodgeLab load-placement engine
(`grid_data.py`, `dc_power_flow.py`, `load_testing.py`).

Python rows (positional lists) become typed records whose fields follow
the documented column layout of `grid_data.py`.  Floats become `ℚ`
(the source only adds, subtracts, multiplies, divides and compares).
Fallible code (KeyError lookups, `max` on an empty sequence, missing
slack bus, a singular reduced system) is embedded in `Except PFError`.
-/

namespace LoadPlacement

/-- Bus row: `[bus_id, type, Pd, Qd, Gs, Bs, area, Vm, Va, baseKV, zone, Vmax, Vmin]`. -/
structure Bus where
  busId : Int
  busType : Int
  pd : ℚ
  qd : ℚ
  gs : ℚ
  bs : ℚ
  area : Int
  vm : ℚ
  va : ℚ
  baseKV : ℚ
  zone : Int
  vmax : ℚ
  vmin : ℚ
deriving Repr, DecidableEq, Inhabited

/-- Branch row: `[from_bus, to_bus, r, x, b, rate_A, rate_B, rate_C, ratio, angle, status, min_angle, max_angle]`. -/
structure Branch where
  fromBus : Int
  toBus : Int
  r : ℚ
  x : ℚ
  b : ℚ
  rateA : ℚ
  rateB : ℚ
  rateC : ℚ
  tap : ℚ
  shift : ℚ
  status : Int
  minAngle : ℚ
  maxAngle : ℚ
deriving Repr, DecidableEq, Inhabited

/-- Generator row: `[bus, Pg, Qg, Qmax, Qmin, Vg, mBase, status, Pmax, Pmin, cost_a, cost_b, cost_c]`.
Index 7 is the in-service status and index 8 is Pmax. -/
structure Gen where
  bus : Int
  pg : ℚ
  qg : ℚ
  qmax : ℚ
  qmin : ℚ
  vg : ℚ
  mBase : ℚ
  status : Int
  pmax : ℚ
  pmin : ℚ
  costA : ℚ
  costB : ℚ
  costC : ℚ
deriving Repr, DecidableEq, Inhabited

/-- Failure cases of the embedded code: dictionary KeyError on a bus id,
`ValueError` for a missing slack bus, a singular reduced system, and
Python `max`/indexing applied to an empty sequence. -/
inductive PFError where
  | unknownBus (bid : Int)
  | noSlackBus
  | singularSystem
  | emptySeq
deriving Repr, DecidableEq

/-- The `system_data` dictionary returned by `get_9bus_system`. -/
structure SystemData where
  buses : List Bus
  branches : List Branch
  generators : List Gen
  baseMVA : ℚ
deriving Repr, DecidableEq

/-- grid_data.get_9bus_system: the IEEE 9-bus test system data. -/
def get_9bus_system : SystemData where
  buses :=
    [ ⟨1, 3, 0, 0, 0, 0, 1, 1, 0, 345, 1, 11/10, 9/10⟩
    , ⟨2, 2, 0, 0, 0, 0, 1, 1, 0, 345, 1, 11/10, 9/10⟩
    , ⟨3, 2, 0, 0, 0, 0, 1, 1, 0, 345, 1, 11/10, 9/10⟩
    , ⟨4, 1, 0, 0, 0, 0, 1, 1, 0, 345, 1, 11/10, 9/10⟩
    , ⟨5, 1, 90, 30, 0, 0, 1, 1, 0, 345, 1, 11/10, 9/10⟩
    , ⟨6, 1, 0, 0, 0, 0, 1, 1, 0, 345, 1, 11/10, 9/10⟩
    , ⟨7, 1, 100, 35, 0, 0, 1, 1, 0, 345, 1, 11/10, 9/10⟩
    , ⟨8, 1, 0, 0, 0, 0, 1, 1, 0, 345, 1, 11/10, 9/10⟩
    , ⟨9, 1, 125, 50, 0, 0, 1, 1, 0, 345, 1, 11/10, 9/10⟩ ]
  branches :=
    [ ⟨1, 4, 0, 576/10000, 0, 250, 250, 250, 0, 0, 1, -360, 360⟩
    , ⟨4, 5, 17/1000, 92/1000, 158/1000, 250, 250, 250, 0, 0, 1, -360, 360⟩
    , ⟨5, 6, 39/1000, 17/100, 358/1000, 150, 150, 150, 0, 0, 1, -360, 360⟩
    , ⟨3, 6, 0, 586/10000, 0, 300, 300, 300, 0, 0, 1, -360, 360⟩
    , ⟨6, 7, 119/10000, 1008/10000, 209/1000, 150, 150, 150, 0, 0, 1, -360, 360⟩
    , ⟨7, 8, 85/10000, 72/1000, 149/1000, 250, 250, 250, 0, 0, 1, -360, 360⟩
    , ⟨8, 2, 0, 625/10000, 0, 250, 250, 250, 0, 0, 1, -360, 360⟩
    , ⟨8, 9, 32/1000, 161/1000, 306/1000, 250, 250, 250, 0, 0, 1, -360, 360⟩
    , ⟨9, 4, 1/100, 85/1000, 176/1000, 250, 250, 250, 0, 0, 1, -360, 360⟩ ]
  generators :=
    [ ⟨1, 0, 0, 300, -300, 1, 100, 1, 250, 10, 11/100, 5, 150⟩
    , ⟨2, 163, 0, 300, -300, 1, 100, 1, 300, 10, 85/1000, 12/10, 600⟩
    , ⟨3, 85, 0, 300, -300, 1, 100, 1, 270, 10, 1225/10000, 1, 335⟩ ]
  baseMVA := 100

/-- grid_data.add_new_load: copy the bus list, then add the load to the
first bus whose id matches (`break` after the first hit).  The Python
deep copy is the identity on immutable Lean values. -/
def add_new_load (busData : List Bus) (busId : Int) (newLoadMW : ℚ)
    (newLoadMVAr : ℚ := 0) : List Bus :=
  match busData with
  | [] => []
  | b :: rest =>
      if b.busId = busId then
        { b with pd := b.pd + newLoadMW, qd := b.qd + newLoadMVAr } :: rest
      else
        b :: add_new_load rest busId newLoadMW newLoadMVAr

/-- The `bus_indices` dictionary of `build_b_matrix`: bus id to position,
later rows overwriting earlier ones exactly as repeated dict assignment does. -/
def busIndices (buses : List Bus) (bid : Int) : Option Nat :=
  buses.enum.foldl (fun acc p => if p.2.busId = bid then some p.1 else acc) none

/-- A single in-place addition `B[i, j] += v` on the susceptance matrix,
which we carry as a total function on indices. -/
def bAddEntry (B : Nat → Nat → ℚ) (i j : Nat) (v : ℚ) : Nat → Nat → ℚ :=
  fun a c => if a = i ∧ c = j then B a c + v else B a c

/-- One iteration of the branch loop of `build_b_matrix`: in-service
branches with non-zero reactance stamp `1/x` on to the four entries, all
other branches are skipped; a missing endpoint is a dict KeyError. -/
def bStampBranch (buses : List Bus) (B : Nat → Nat → ℚ) (br : Branch) :
    Except PFError (Nat → Nat → ℚ) :=
  if br.status = 1 ∧ br.x ≠ 0 then
    match busIndices buses br.fromBus, busIndices buses br.toBus with
    | some fi, some ti =>
        let b := 1 / br.x
        .ok (bAddEntry (bAddEntry (bAddEntry (bAddEntry B fi fi b) ti ti b) fi ti (-b)) ti fi (-b))
    | none, _ => .error (.unknownBus br.fromBus)
    | some _, none => .error (.unknownBus br.toBus)
  else
    .ok B

/-- dc_power_flow.build_b_matrix: fold the branch loop over an all-zero
matrix.  The `bus_indices` half of the Python return value is recovered
by `busIndices buses`. -/
def build_b_matrix (buses : List Bus) (branches : List Branch) :
    Except PFError (Nat → Nat → ℚ) :=
  branches.foldlM (fun B br => bStampBranch buses B br) (fun _ _ => 0)

/-- One branch-flow record of `run_dc_power_flow` (and, unchanged field
for field, one entry of the violation list of `check_line_violations`). -/
structure FlowRec where
  fromBus : Int
  toBus : Int
  flowMW : ℚ
  limitMW : ℚ
  loadingPercent : ℚ
deriving Repr, DecidableEq, Inhabited

/-- Result dictionary of `run_dc_power_flow`.  The `bus_indices` entry is
recovered by `busIndices buses` and is omitted here. -/
structure PFResult where
  theta : List ℚ
  flows : List FlowRec
deriving Repr, DecidableEq, Inhabited

instance exceptDecEq {ε α : Type} [DecidableEq ε] [DecidableEq α] :
    DecidableEq (Except ε α) := fun a b =>
  match a, b with
  | .error e, .error f =>
      if h : e = f then .isTrue (h ▸ rfl)
      else .isFalse (fun hc => h (by cases hc; rfl))
  | .ok x, .ok y =>
      if h : x = y then .isTrue (h ▸ rfl)
      else .isFalse (fun hc => h (by cases hc; rfl))
  | .error _, .ok _ => .isFalse (fun hc => Except.noConfusion hc)
  | .ok _, .error _ => .isFalse (fun hc => Except.noConfusion hc)

/-- Split off the first row of an augmented system whose leading
coefficient is non-zero, keeping the other rows in order. -/
def pivotSplit : List (List ℚ) → Option (List ℚ × List (List ℚ))
  | [] => none
  | row :: rest =>
      if row.headD 0 ≠ 0 then some (row, rest)
      else (pivotSplit rest).map (fun pr => (pr.1, row :: pr.2))

/-- Fuelled exact Gaussian elimination with back substitution on an
augmented system (each row is the coefficients followed by the
right-hand side); `none` when no non-zero pivot exists.  The fuel is
only a structural-recursion device: each step removes one row, so
`rows.length` fuel always suffices. -/
def solveLinAux : Nat → List (List ℚ) → Option (List ℚ)
  | _, [] => some []
  | 0, _ :: _ => none
  | fuel + 1, row :: rest =>
      match pivotSplit (row :: rest) with
      | none => none
      | some (p, others) =>
          let a := p.headD 0
          let pt := p.tail.map (fun c => c / a)
          let reduced := others.map (fun q => (q.tail).zipWith (fun c pc => c - q.headD 0 * pc) pt)
          match solveLinAux fuel reduced with
          | none => none
          | some xs =>
              some ((pt.getLastD 0 - (List.zipWith (fun c xv => c * xv) pt.dropLast xs).sum) :: xs)

/-- Model of `scipy.sparse.linalg.spsolve` on an exact square rational
system: the unique solution when the matrix is invertible, `none`
otherwise.  (No settled claim depends on the singular case.) -/
def solveLin (rows : List (List ℚ)) : Option (List ℚ) :=
  solveLinAux rows.length rows

/-- One iteration of the generator loop of `run_dc_power_flow`: add Pg at
the generator's bus when it is in service; a generator whose bus id is
not in `bus_indices` is skipped by the explicit `in` test. -/
def stampGen (buses : List Bus) (P : List ℚ) (g : Gen) : List ℚ :=
  if g.status = 1 then
    match busIndices buses g.bus with
    | some i => P.set i (P.getD i 0 + g.pg)
    | none => P
  else P

/-- The flow record the branch loop of `run_dc_power_flow` appends for one
branch: `none` for out-of-service or zero-reactance branches. -/
def flowOfBranch (buses : List Bus) (theta : List ℚ) (baseMVA : ℚ) (br : Branch) :
    Except PFError (Option FlowRec) :=
  if br.status = 1 then
    if br.x ≠ 0 then
      match busIndices buses br.fromBus, busIndices buses br.toBus with
      | some fi, some ti =>
          let flow := (theta.getD fi 0 - theta.getD ti 0) / br.x * baseMVA
          .ok (some { fromBus := br.fromBus, toBus := br.toBus, flowMW := flow,
                      limitMW := br.rateA,
                      loadingPercent := if br.rateA > 0 then |flow| / br.rateA * 100 else 0 })
      | none, _ => .error (.unknownBus br.fromBus)
      | some _, none => .error (.unknownBus br.toBus)
    else .ok none
  else .ok none

/-- The branch-flow loop of `run_dc_power_flow`, in list order. -/
def collectFlows (buses : List Bus) (theta : List ℚ) (baseMVA : ℚ) :
    List Branch → Except PFError (List FlowRec)
  | [] => .ok []
  | br :: rest => do
      let o ← flowOfBranch buses theta baseMVA br
      let fs ← collectFlows buses theta baseMVA rest
      match o with
      | some f => .ok (f :: fs)
      | none => .ok fs

/-- dc_power_flow.run_dc_power_flow: assemble B, build the net injection
vector (generation minus load, normalised by the base MVA), drop the
first slack bus's row and column, solve the reduced system, reinsert a
zero slack angle, and recover the branch flows. -/
def run_dc_power_flow (buses : List Bus) (branches : List Branch)
    (generators : List Gen) (baseMVA : ℚ := 100) : Except PFError PFResult := do
  let B ← build_b_matrix buses branches
  let n := buses.length
  let P0 := generators.foldl (stampGen buses) (List.replicate n 0)
  let P1 := (P0.zip buses).map (fun p => p.1 - p.2.pd)
  let P2 := P1.map (fun v => v / baseMVA)
  match (List.range n).find? (fun i => decide ((buses.getD i default).busType = 3)) with
  | none => .error .noSlackBus
  | some slackIdx =>
      let keep := (List.range n).filter (fun i => i ≠ slackIdx)
      let rows := keep.map (fun i => keep.map (fun j => B i j) ++ [P2.getD i 0])
      match solveLin rows with
      | none => .error .singularSystem
      | some xs =>
          let theta := (List.range n).map
            (fun i => if i = slackIdx then 0 else xs.getD (keep.indexOf i) 0)
          let flows ← collectFlows buses theta baseMVA branches
          .ok { theta, flows }

/-- dc_power_flow.check_line_violations: keep exactly the records whose
loading percentage exceeds the tolerance (the Python code rebuilds each
kept record from the same five fields, which is the identity here). -/
def check_line_violations (flows : List FlowRec) (tolerancePercent : ℚ := 100) :
    List FlowRec :=
  flows.filter (fun f => f.loadingPercent > tolerancePercent)

/-- One entry of the `loading_changes` list of `run_load_placement_test`. -/
structure LoadingChange where
  fromBus : Int
  toBus : Int
  baseLoading : ℚ
  newLoading : ℚ
  change : ℚ
deriving Repr, DecidableEq, Inhabited

/-- The per-candidate result dictionary stored in `test_results[bus_id]`. -/
structure CandidateResult where
  violations : List FlowRec
  loadingChanges : List LoadingChange
  maxLoadingChange : ℚ
  mostAffectedLine : LoadingChange
  genCapacityExceeded : Bool
deriving Repr, DecidableEq, Inhabited

/-- Python `max` over a sequence of rationals: `ValueError` when empty. -/
def pyMax (l : List ℚ) : Except PFError ℚ :=
  match l with
  | [] => .error .emptySeq
  | h :: t => .ok (t.foldl max h)

/-- Head of `sorted(loading_changes, key=lambda x: abs(x['change']), reverse=True)`:
the earliest entry of largest-magnitude change (Python's sort is stable,
so the strict comparison keeps the earliest among ties). -/
def mostAffectedOf (l : List LoadingChange) : Except PFError LoadingChange :=
  match l with
  | [] => .error .emptySeq
  | h :: t => .ok (t.foldl (fun best c => if |c.change| > |best.change| then c else best) h)

/-- Total real-power load of a bus list, `sum(bus[2] for bus in modified_buses)`. -/
def totalLoadOf (buses : List Bus) : ℚ :=
  (buses.map (fun b => b.pd)).sum

/-- Line 44 of load_testing.py, `sum(gen[7] for gen in generators if gen[8] == 1)`:
column 7 is the status and column 8 is Pmax, so this adds up the status
column over the generators whose Pmax equals 1. -/
def totalGenCapacityOf (generators : List Gen) : Int :=
  ((generators.filter (fun g => g.pmax = 1)).map (fun g => g.status)).sum

/-- The `gen_capacity_exceeded` flag of `run_load_placement_test`. -/
def genCapacityExceededOf (modifiedBuses : List Bus) (generators : List Gen) : Bool :=
  totalLoadOf modifiedBuses > (totalGenCapacityOf generators : ℚ)

/-- Modelled from the spec, for comparison only (section 7 of the spec;
`InfeasibleLoadError`): the total available generator capacity, the sum
of Pmax over the in-service generators. -/
def specTotalAvailableCapacity (generators : List Gen) : ℚ :=
  ((generators.filter (fun g => g.status = 1)).map (fun g => g.pmax)).sum

/-- One iteration of the candidate loop of `run_load_placement_test`:
clone-and-add the load, compute the capacity flag, re-run the power
flow, collect violations and per-branch loading changes.  The Python
`zip` by position of new and base flows is total because both runs see
the same branch list. -/
def evalCandidate (baseFlows : List FlowRec) (originalBuses : List Bus)
    (branches : List Branch) (generators : List Gen) (baseMVA : ℚ)
    (busId : Int) (newLoadMW newLoadMVAr : ℚ) : Except PFError CandidateResult := do
  let modifiedBuses := add_new_load originalBuses busId newLoadMW newLoadMVAr
  let genCapacityExceeded := genCapacityExceededOf modifiedBuses generators
  let pf ← run_dc_power_flow modifiedBuses branches generators baseMVA
  let violations := check_line_violations pf.flows
  let loadingChanges := (pf.flows.zip baseFlows).map (fun p =>
    { fromBus := p.1.fromBus, toBus := p.1.toBus,
      baseLoading := p.2.loadingPercent, newLoading := p.1.loadingPercent,
      change := p.1.loadingPercent - p.2.loadingPercent : LoadingChange })
  let maxLoadingChange ← pyMax (loadingChanges.map (fun c => c.change))
  let mostAffectedLine ← mostAffectedOf loadingChanges
  .ok { violations, loadingChanges, maxLoadingChange, mostAffectedLine, genCapacityExceeded }

/-- Whether an insertion-ordered dictionary holds a key. -/
def hasKey {α : Type} (l : List (Int × α)) (k : Int) : Bool :=
  l.any (fun p => p.1 = k)

/-- Assignment `d[k] = v` on an insertion-ordered dictionary: a present
key keeps its position, a new key is appended. -/
def dictInsert {α : Type} (l : List (Int × α)) (k : Int) (v : α) : List (Int × α) :=
  if hasKey l k then l.map (fun p => if p.1 = k then (k, v) else p) else l ++ [(k, v)]

/-- The dictionary returned by `run_load_placement_test`. -/
structure TestResults where
  baseViolations : List FlowRec
  testCases : List (Int × CandidateResult)
deriving Repr, DecidableEq, Inhabited

/-- The body of the `for bus_id in test_buses` loop of
`run_load_placement_test`, storing one candidate's result under its bus
id in the accumulated dictionary. -/
def candidateStep (baseFlows : List FlowRec) (newLoadMW newLoadMVAr : ℚ)
    (acc : List (Int × CandidateResult)) (bid : Int) :
    Except PFError (List (Int × CandidateResult)) := do
  let r ← evalCandidate baseFlows get_9bus_system.buses get_9bus_system.branches
            get_9bus_system.generators get_9bus_system.baseMVA bid newLoadMW newLoadMVAr
  pure (dictInsert acc bid r)

/-- load_testing.run_load_placement_test: run the base case on the fixed
9-bus system, then evaluate every candidate bus in turn. -/
def run_load_placement_test (testBuses : List Int) (newLoadMW : ℚ := 50)
    (newLoadMVAr : ℚ := 20) : Except PFError TestResults := do
  let sys := get_9bus_system
  let basePF ← run_dc_power_flow sys.buses sys.branches sys.generators sys.baseMVA
  let baseViolations := check_line_violations basePF.flows
  let testCases ← testBuses.foldlM (candidateStep basePF.flows newLoadMW newLoadMVAr) []
  .ok { baseViolations, testCases }

/-- One evaluation dictionary built by `recommend_load_placement`; the
Python `most_affected_line` string `"{from} to {to}"` is carried as the
pair of ids it interpolates. -/
structure BusEval where
  busId : Int
  hasViolations : Bool
  hasGenCapacityIssues : Bool
  maxLineLoading : ℚ
  maxLoadingChange : ℚ
  mostAffectedFrom : Int
  mostAffectedTo : Int
  score : ℚ
deriving Repr, DecidableEq, Inhabited

/-- The loop body of `recommend_load_placement` for one entry of
`test_cases`: the violation flags, the maximum new loading (Python `max`,
an error on an empty list), and the score. -/
def evalOfCase (p : Int × CandidateResult) : Except PFError BusEval := do
  let hasViolations := decide (p.2.violations.length > 0)
  let hasGenCapacityIssues := p.2.genCapacityExceeded
  let maxLineLoading ← pyMax (p.2.loadingChanges.map (fun c => c.newLoading))
  let score : ℚ :=
    if hasViolations || hasGenCapacityIssues then 1000
    else maxLineLoading + |p.2.maxLoadingChange| * 2
  .ok { busId := p.1, hasViolations, hasGenCapacityIssues, maxLineLoading,
        maxLoadingChange := p.2.maxLoadingChange,
        mostAffectedFrom := p.2.mostAffectedLine.fromBus,
        mostAffectedTo := p.2.mostAffectedLine.toBus, score }

/-- The `evaluations` list of `recommend_load_placement`, in the
insertion order of `test_cases`. -/
def evaluationsOf (tr : TestResults) : Except PFError (List BusEval) :=
  tr.testCases.mapM evalOfCase

/-- Insert an evaluation in front of the first element of not-smaller
score (stable insertion step). -/
def insertByScore (x : BusEval) : List BusEval → List BusEval
  | [] => [x]
  | y :: ys => if x.score ≤ y.score then x :: y :: ys else y :: insertByScore x ys

/-- Model of `sorted(evaluations, key=lambda x: x['score'])`: stable
insertion sort, ascending by score, equal scores kept in input order -
exactly the contract of Python's `sorted`. -/
def sortByScore : List BusEval → List BusEval
  | [] => []
  | x :: xs => insertByScore x (sortByScore xs)

/-- Outcome field of `recommend_load_placement`: the two recommendation
strings, carried as a sum with the interpolated bus id. -/
inductive Outcome where
  | noBusRecommended
  | busRecommended (busId : Int)
deriving Repr, DecidableEq, Inhabited

/-- Return dictionary of `recommend_load_placement`. -/
structure RankingResult where
  rankedBuses : List BusEval
  outcome : Outcome
deriving Repr, DecidableEq, Inhabited

/-- load_testing.recommend_load_placement: score every test case, sort by
score, and recommend the top-ranked bus unless it has line violations.
`max_loading_threshold` is accepted and, as in the source, never read;
`ranked_buses[0]` on an empty dictionary is an IndexError. -/
def recommend_load_placement (testResults : TestResults)
    (maxLoadingThreshold : ℚ := 80) : Except PFError RankingResult := do
  let _ := maxLoadingThreshold
  let evaluations ← evaluationsOf testResults
  let rankedBuses := sortByScore evaluations
  match rankedBuses with
  | [] => .error .emptySeq
  | top :: _ =>
      .ok { rankedBuses,
            outcome := if top.hasViolations then .noBusRecommended
                       else .busRecommended top.busId }

/-! Concrete evaluation relies on kernel reduction of the rational
primitives, which the library ships reducibility-protected. -/

attribute [local semireducible] Rat.add Rat.mul Rat.inv Rat.sub

set_option maxRecDepth 10000

/-! Helper lemmas about the embedded operations. -/

theorem add_new_load_not_found (busData : List Bus) (busId : Int) (mw mv : ℚ)
    (h : ∀ b ∈ busData, b.busId ≠ busId) :
    add_new_load busData busId mw mv = busData := by
  induction busData with
  | nil => rfl
  | cons b rest ih =>
      have hb : b.busId ≠ busId := h b (List.mem_cons_self b rest)
      simp only [add_new_load, if_neg hb]
      rw [ih (fun c hc => h c (List.mem_cons_of_mem b hc))]

theorem add_new_load_found (pre post : List Bus) (b : Bus) (busId : Int) (mw mv : ℚ)
    (hpre : ∀ p ∈ pre, p.busId ≠ busId) (hb : b.busId = busId) :
    add_new_load (pre ++ b :: post) busId mw mv =
      pre ++ { b with pd := b.pd + mw, qd := b.qd + mv } :: post := by
  induction pre with
  | nil => simp [add_new_load, hb]
  | cons p rest ih =>
      have hp : p.busId ≠ busId := hpre p (List.mem_cons_self p rest)
      simp only [List.cons_append, add_new_load, if_neg hp, List.append_eq]
      exact congrArg (p :: ·) (ih (fun c hc => hpre c (List.mem_cons_of_mem p hc)))

theorem hasKey_dictInsert_self {α : Type} (l : List (Int × α)) (k : Int) (v : α) :
    hasKey (dictInsert l k v) k = true := by
  unfold dictInsert
  by_cases hk : hasKey l k
  · rw [if_pos hk]
    rcases List.any_eq_true.mp hk with ⟨p, hp, hpk⟩
    have hp1 : p.1 = k := of_decide_eq_true hpk
    refine List.any_eq_true.mpr ⟨if p.1 = k then (k, v) else p, List.mem_map_of_mem _ hp, ?_⟩
    rw [if_pos hp1]
    simp
  · rw [if_neg hk]
    refine List.any_eq_true.mpr ⟨(k, v), List.mem_append_right _ (by simp), by simp⟩

theorem hasKey_dictInsert_mono {α : Type} (l : List (Int × α)) (k k' : Int) (v : α)
    (h : hasKey l k' = true) : hasKey (dictInsert l k v) k' = true := by
  unfold dictInsert
  by_cases hk : hasKey l k
  · rw [if_pos hk]
    rcases List.any_eq_true.mp h with ⟨p, hp, hpk⟩
    have hpk' : p.1 = k' := of_decide_eq_true hpk
    refine List.any_eq_true.mpr ⟨if p.1 = k then (k, v) else p, List.mem_map_of_mem _ hp, ?_⟩
    by_cases hpkk : p.1 = k
    · rw [if_pos hpkk]
      simp [← hpkk ▸ hpk']
    · rw [if_neg hpkk]
      simp [hpk']
  · rw [if_neg hk]
    exact List.any_eq_true.mpr
      (let ⟨p, hp, hpk⟩ := List.any_eq_true.mp h
       ⟨p, List.mem_append_left _ hp, hpk⟩)

theorem foldCandidates_hasKey (baseFlows : List FlowRec) (mw mv : ℚ) :
    ∀ (l : List Int) (acc out : List (Int × CandidateResult)),
      l.foldlM (candidateStep baseFlows mw mv) acc = .ok out →
      (∀ k, hasKey acc k = true → hasKey out k = true) ∧ (∀ b ∈ l, hasKey out b = true) := by
  intro l
  induction l with
  | nil =>
      intro acc out hout
      simp only [List.foldlM_nil, pure, Except.pure, Except.ok.injEq] at hout
      subst hout
      exact ⟨fun k hk => hk, by simp⟩
  | cons bid rest ih =>
      intro acc out hout
      simp only [List.foldlM_cons] at hout
      cases hev : evalCandidate baseFlows get_9bus_system.buses get_9bus_system.branches
          get_9bus_system.generators get_9bus_system.baseMVA bid mw mv with
      | error e =>
          simp [candidateStep, hev, bind, Except.bind] at hout
      | ok rc =>
          simp only [candidateStep, hev, bind, Except.bind, pure, Except.pure] at hout
          obtain ⟨mono, hall⟩ := ih (dictInsert acc bid rc) out hout
          refine ⟨fun k hk => mono k (hasKey_dictInsert_mono acc bid k rc hk), ?_⟩
          intro b hb
          rcases List.mem_cons.mp hb with hb | hb
          · exact hb ▸ mono bid (hasKey_dictInsert_self acc bid rc)
          · exact hall b hb

theorem bFold_error (branches : List Branch) (buses : List Bus)
    (B0 : Nat → Nat → ℚ)
    (hex : ∃ br ∈ branches, br.status = 1 ∧ br.x ≠ 0 ∧
      (busIndices buses br.fromBus = none ∨ busIndices buses br.toBus = none)) :
    (branches.foldlM (fun B br => bStampBranch buses B br) B0).isOk = false := by
  induction branches generalizing B0 with
  | nil => rcases hex with ⟨br, hmem, _⟩; exact absurd hmem (List.not_mem_nil br)
  | cons a rest ih =>
      rcases hex with ⟨br, hmem, h1, h2, h3⟩
      rcases List.mem_cons.mp hmem with rfl | hmem
      · simp only [List.foldlM_cons, bStampBranch, if_pos (And.intro h1 h2)]
        rcases h3 with h3 | h3
        · simp [h3, bind, Except.bind, Except.isOk, Except.toBool]
        · cases hfrom : busIndices buses br.fromBus <;>
            simp [hfrom, h3, bind, Except.bind, Except.isOk, Except.toBool]
      · simp only [List.foldlM_cons]
        cases hstep : bStampBranch buses B0 a with
        | error e => simp [bind, Except.bind, Except.isOk, Except.toBool]
        | ok B1 =>
            simp only [bind, Except.bind]
            exact ih B1 ⟨br, hmem, h1, h2, h3⟩

theorem stampGen_skip (buses : List Bus) (P : List ℚ) (g : Gen)
    (h : busIndices buses g.bus = none) : stampGen buses P g = P := by
  by_cases hs : g.status = 1 <;> simp [stampGen, hs, h]

theorem flowOfBranch_ok_some (buses : List Bus) (theta : List ℚ) (bm : ℚ)
    (br : Branch) (f : FlowRec) (h : flowOfBranch buses theta bm br = .ok (some f)) :
    f.loadingPercent = (if f.limitMW > 0 then |f.flowMW| / f.limitMW * 100 else 0) := by
  unfold flowOfBranch at h
  by_cases hs : br.status = 1
  · rw [if_pos hs] at h
    by_cases hx : br.x ≠ 0
    · rw [if_pos hx] at h
      cases h1 : busIndices buses br.fromBus with
      | none => rw [h1] at h; exact absurd h (by simp)
      | some fi =>
          cases h2 : busIndices buses br.toBus with
          | none => rw [h1, h2] at h; exact absurd h (by simp)
          | some ti =>
              rw [h1, h2] at h
              simp only [Except.ok.injEq, Option.some.injEq] at h
              subst h
              rfl
    · rw [if_neg hx] at h
      exact absurd h (by simp)
  · rw [if_neg hs] at h
    exact absurd h (by simp)

theorem collectFlows_loading (buses : List Bus) (theta : List ℚ) (bm : ℚ) :
    ∀ (brs : List Branch) (fs : List FlowRec),
      collectFlows buses theta bm brs = .ok fs →
      ∀ f ∈ fs, f.loadingPercent = (if f.limitMW > 0 then |f.flowMW| / f.limitMW * 100 else 0) := by
  intro brs
  induction brs with
  | nil =>
      intro fs h
      simp only [collectFlows, Except.ok.injEq] at h
      subst h
      simp
  | cons br rest ih =>
      intro fs h
      simp only [collectFlows] at h
      cases h1 : flowOfBranch buses theta bm br with
      | error e => rw [h1] at h; exact absurd h (by simp [bind, Except.bind])
      | ok o =>
          rw [h1] at h
          simp only [bind, Except.bind] at h
          cases h2 : collectFlows buses theta bm rest with
          | error e => rw [h2] at h; exact absurd h (by simp)
          | ok fs' =>
              rw [h2] at h
              cases o with
              | some f0 =>
                  simp only [Except.ok.injEq] at h
                  subst h
                  intro f hf
                  rcases List.mem_cons.mp hf with rfl | hf
                  · exact flowOfBranch_ok_some buses theta bm br f h1
                  · exact ih fs' h2 f hf
              | none =>
                  simp only [Except.ok.injEq] at h
                  subst h
                  exact ih _ h2

theorem run_dc_power_flow_flows (buses : List Bus) (branches : List Branch)
    (gens : List Gen) (bm : ℚ) (res : PFResult)
    (h : run_dc_power_flow buses branches gens bm = .ok res) :
    ∃ theta, collectFlows buses theta bm branches = .ok res.flows := by
  unfold run_dc_power_flow at h
  simp only [bind, Except.bind] at h
  split at h
  · exact absurd h (by simp)
  · split at h
    · exact absurd h (by simp)
    · split at h
      · exact absurd h (by simp)
      · split at h
        · exact absurd h (by simp)
        · rename_i heq
          simp only [Except.ok.injEq] at h
          subst h
          exact ⟨_, heq⟩

theorem enumFrom_fst_lt : ∀ (l : List Bus) (k : Nat) (p : Nat × Bus),
    p ∈ l.enumFrom k → p.1 < k + l.length := by
  intro l
  induction l with
  | nil => intro k p hp; exact absurd hp (List.not_mem_nil p)
  | cons b rest ih =>
      intro k p hp
      rcases List.mem_cons.mp hp with rfl | hp
      · simp
      · have := ih (k + 1) p hp
        simp only [List.length_cons]
        omega

theorem foldl_lastIdx_bound (bid : Int) :
    ∀ (l : List (Nat × Bus)) (acc : Option Nat) (n : Nat),
      (∀ v, acc = some v → v < n) → (∀ p ∈ l, p.1 < n) →
      ∀ j, l.foldl (fun acc p => if p.2.busId = bid then some p.1 else acc) acc = some j →
        j < n := by
  intro l
  induction l with
  | nil => intro acc n hacc _ j hj; exact hacc j hj
  | cons p rest ih =>
      intro acc n hacc hlt j hj
      rw [List.foldl_cons] at hj
      refine ih _ n ?_ (fun q hq => hlt q (List.mem_cons_of_mem p hq)) j hj
      intro v hv
      by_cases hp : p.2.busId = bid
      · rw [if_pos hp] at hv
        cases hv
        exact hlt p (List.mem_cons_self p rest)
      · rw [if_neg hp] at hv
        exact hacc v hv

theorem busIndices_lt (buses : List Bus) (bid : Int) (j : Nat)
    (h : busIndices buses bid = some j) : j < buses.length := by
  refine foldl_lastIdx_bound bid buses.enum none buses.length (by simp) ?_ j h
  intro p hp
  have := enumFrom_fst_lt buses 0 p hp
  omega

theorem bQuad_apply (B : Nat → Nat → ℚ) (fi ti : Nat) (v : ℚ) (a c : Nat) :
    bAddEntry (bAddEntry (bAddEntry (bAddEntry B fi fi v) ti ti v) fi ti (-v)) ti fi (-v) a c =
      B a c + (if a = fi ∧ c = fi then v else 0) + (if a = ti ∧ c = ti then v else 0)
        + (if a = fi ∧ c = ti then -v else 0) + (if a = ti ∧ c = fi then -v else 0) := by
  simp only [bAddEntry]
  split_ifs <;> ring

theorem bQuad_symm_pt (B : Nat → Nat → ℚ) (fi ti : Nat) (v : ℚ) (a c : Nat)
    (hac : B a c = B c a) :
    bAddEntry (bAddEntry (bAddEntry (bAddEntry B fi fi v) ti ti v) fi ti (-v)) ti fi (-v) a c =
      bAddEntry (bAddEntry (bAddEntry (bAddEntry B fi fi v) ti ti v) fi ti (-v)) ti fi (-v) c a := by
  rw [bQuad_apply, bQuad_apply, hac]
  by_cases h1 : a = fi <;> by_cases h2 : c = fi <;> by_cases h3 : a = ti <;>
    by_cases h4 : c = ti <;> simp [h1, h2, h3, h4] <;> try ring
  all_goals (congr 1; exact if_congr (by tauto) rfl rfl)

theorem bQuad_row_sum (B : Nat → Nat → ℚ) (fi ti : Nat) (v : ℚ) (n : Nat)
    (hfi : fi < n) (hti : ti < n)
    (hB : ∀ i, ∑ j ∈ Finset.range n, B i j = 0) (i : Nat) :
    ∑ j ∈ Finset.range n,
      bAddEntry (bAddEntry (bAddEntry (bAddEntry B fi fi v) ti ti v) fi ti (-v)) ti fi (-v) i j
      = 0 := by
  simp only [bQuad_apply, ite_and]
  rw [Finset.sum_add_distrib, Finset.sum_add_distrib, Finset.sum_add_distrib,
    Finset.sum_add_distrib, hB i]
  by_cases hif : i = fi <;> by_cases hit : i = ti <;>
    simp [hif, hit, Finset.sum_ite_eq', Finset.mem_range, hfi, hti] <;>
    by_cases hft : fi = ti <;>
    first
    | (simp [hft]; try ring)
    | (have hft' : ¬ ti = fi := fun hh => hft hh.symm
       simp [hft, hft']
       try ring)

theorem bFold_inv : ∀ (branches : List Branch) (buses : List Bus) (B0 : Nat → Nat → ℚ),
    (∀ br ∈ branches, br.status = 1 →
      br.x ≠ 0 ∧ (busIndices buses br.fromBus).isSome ∧ (busIndices buses br.toBus).isSome) →
    (∀ i j, B0 i j = B0 j i) →
    (∀ i, ∑ j ∈ Finset.range buses.length, B0 i j = 0) →
    ∃ B, branches.foldlM (fun B br => bStampBranch buses B br) B0 = .ok B ∧
      (∀ i j, B i j = B j i) ∧ (∀ i, ∑ j ∈ Finset.range buses.length, B i j = 0) := by
  intro branches
  induction branches with
  | nil => intro buses B0 _ hsym hrow; exact ⟨B0, rfl, hsym, hrow⟩
  | cons br rest ih =>
      intro buses B0 hyp hsym hrow
      by_cases hcond : br.status = 1 ∧ br.x ≠ 0
      · obtain ⟨hx, hf, ht⟩ := hyp br (List.mem_cons_self br rest) hcond.1
        obtain ⟨fi, hfi⟩ := Option.isSome_iff_exists.mp hf
        obtain ⟨ti, hti⟩ := Option.isSome_iff_exists.mp ht
        have hstamp : bStampBranch buses B0 br =
            .ok (bAddEntry (bAddEntry (bAddEntry (bAddEntry B0 fi fi (1 / br.x)) ti ti (1 / br.x))
              fi ti (-(1 / br.x))) ti fi (-(1 / br.x))) := by
          rw [bStampBranch, if_pos hcond, hfi, hti]
        obtain ⟨B, hB, hBsym, hBrow⟩ := ih buses _
          (fun b hb hs => hyp b (List.mem_cons_of_mem br hb) hs)
          (fun i j => bQuad_symm_pt B0 fi ti (1 / br.x) i j (hsym i j))
          (bQuad_row_sum B0 fi ti (1 / br.x) buses.length
            (busIndices_lt buses br.fromBus fi hfi) (busIndices_lt buses br.toBus ti hti) hrow)
        refine ⟨B, ?_, hBsym, hBrow⟩
        rw [List.foldlM_cons, hstamp]
        exact hB
      · have hstamp : bStampBranch buses B0 br = .ok B0 := by
          rw [bStampBranch, if_neg hcond]
        obtain ⟨B, hB, hBsym, hBrow⟩ := ih buses B0
          (fun b hb hs => hyp b (List.mem_cons_of_mem br hb) hs) hsym hrow
        refine ⟨B, ?_, hBsym, hBrow⟩
        rw [List.foldlM_cons, hstamp]
        exact hB

theorem mem_insertByScore (x : BusEval) : ∀ (l : List BusEval) (z : BusEval),
    z ∈ insertByScore x l ↔ z = x ∨ z ∈ l := by
  intro l
  induction l with
  | nil => intro z; simp [insertByScore]
  | cons y ys ih =>
      intro z
      simp only [insertByScore]
      split
      · simp [List.mem_cons]
      · simp only [List.mem_cons, ih z]
        tauto

theorem pairwise_insertByScore (x : BusEval) : ∀ l : List BusEval,
    l.Pairwise (fun a b => a.score ≤ b.score) →
    (insertByScore x l).Pairwise (fun a b => a.score ≤ b.score) := by
  intro l
  induction l with
  | nil => intro _; simp [insertByScore]
  | cons y ys ih =>
      intro hp
      rw [List.pairwise_cons] at hp
      obtain ⟨hy, hys⟩ := hp
      simp only [insertByScore]
      split
      · rename_i hxy
        rw [List.pairwise_cons]
        refine ⟨?_, by rw [List.pairwise_cons]; exact ⟨hy, hys⟩⟩
        intro z hz
        rcases List.mem_cons.mp hz with rfl | hz
        · exact hxy
        · exact le_trans hxy (hy z hz)
      · rename_i hxy
        rw [List.pairwise_cons]
        refine ⟨?_, ih hys⟩
        intro z hz
        rcases (mem_insertByScore x ys z).mp hz with rfl | hz
        · exact le_of_lt (lt_of_not_le hxy)
        · exact hy z hz

theorem pairwise_sortByScore : ∀ l : List BusEval,
    (sortByScore l).Pairwise (fun a b => a.score ≤ b.score)
  | [] => by simp [sortByScore]
  | x :: xs => by
      simp only [sortByScore]
      exact pairwise_insertByScore x _ (pairwise_sortByScore xs)

theorem filter_insertByScore (x : BusEval) (s : ℚ) : ∀ l : List BusEval,
    (insertByScore x l).filter (fun e => decide (e.score = s)) =
      if x.score = s then x :: l.filter (fun e => decide (e.score = s))
      else l.filter (fun e => decide (e.score = s)) := by
  intro l
  induction l with
  | nil => by_cases hx : x.score = s <;> simp [insertByScore, hx]
  | cons y ys ih =>
      simp only [insertByScore]
      split
      · rename_i hxy
        by_cases hx : x.score = s <;> simp [List.filter_cons, hx]
      · rename_i hxy
        have hyx : y.score < x.score := lt_of_not_le hxy
        by_cases hx : x.score = s
        · have hy : ¬ y.score = s := by rw [← hx]; exact ne_of_lt hyx
          simp [List.filter_cons, hx, hy, ih]
        · by_cases hy : y.score = s <;> simp [List.filter_cons, hx, hy, ih]

theorem filter_sortByScore (s : ℚ) : ∀ l : List BusEval,
    (sortByScore l).filter (fun e => decide (e.score = s)) =
      l.filter (fun e => decide (e.score = s))
  | [] => rfl
  | x :: xs => by
      rw [sortByScore, filter_insertByScore x s (sortByScore xs),
        filter_sortByScore s xs, List.filter_cons]
      by_cases hx : x.score = s <;> simp [hx]

theorem recommend_ok (tr : TestResults) (r : RankingResult)
    (h : recommend_load_placement tr = .ok r) :
    ∃ evals, evaluationsOf tr = .ok evals ∧ r.rankedBuses = sortByScore evals ∧
      ∃ top rest, sortByScore evals = top :: rest ∧
        r.outcome = (if top.hasViolations then Outcome.noBusRecommended
                     else Outcome.busRecommended top.busId) := by
  unfold recommend_load_placement at h
  simp only [bind, Except.bind] at h
  split at h
  · exact absurd h (by simp)
  · rename_i evals heval
    split at h
    · exact absurd h (by simp)
    · rename_i top rest hsort
      simp only [Except.ok.injEq] at h
      subst h
      exact ⟨evals, heval, rfl, top, rest, hsort, rfl⟩

/-! Claim theorems. -/

/-- C1: the claim reads `gen_capacity_exceeded` as "total load exceeds the
sum of Pmax over in-service generators", which is also what the source
comment on line 44 of load_testing.py says; the code instead sums the
status column over generators whose Pmax equals 1, so on the 9-bus data
the computed capacity is 0 and the flag is raised although the 365 MW
total load is well below the 820 MW of in-service Pmax. -/
theorem C1_gen_capacity_flag_contradicts_claim :
    genCapacityExceededOf (add_new_load get_9bus_system.buses 5 50 20)
        get_9bus_system.generators = true ∧
    totalGenCapacityOf get_9bus_system.generators = 0 ∧
    totalLoadOf (add_new_load get_9bus_system.buses 5 50 20) = 365 ∧
    specTotalAvailableCapacity get_9bus_system.generators = 820 ∧
    ¬ totalLoadOf (add_new_load get_9bus_system.buses 5 50 20) >
        specTotalAvailableCapacity get_9bus_system.generators := by
  refine ⟨by decide, by decide, by decide, by decide, by decide⟩

/-- C2 counterexample: at candidate bus 5 with the default 50 MW / 20 MVAr
the feasibility check fails (`gen_capacity_exceeded = true`), yet the
candidate is recorded with its ordinary computed metrics - an empty
violation list and the finite loading-change maximum 20 - not with any
sentinel objective/margin values; no such sentinel fields exist in the
stored record at all. -/
theorem C2_feasibility_failure_records_ordinary_metrics :
    ((run_load_placement_test [5] 50 20).toOption.bind (fun r =>
      (r.testCases.find? (fun p => p.1 = 5)).map (fun p =>
        (p.2.genCapacityExceeded, p.2.violations, p.2.maxLoadingChange)))) =
    some (true, [], 20) := by decide

/-- C2 amended: when the placement loop returns at all, every candidate in
the list - the feasibility-flagged ones included - receives an entry in
`test_cases`; there is no per-candidate try/except, so a per-candidate
error would instead abort the whole call. -/
theorem C2_every_candidate_receives_record (testBuses : List Int) (mw mv : ℚ)
    (b : Int) (hb : b ∈ testBuses) :
    (run_load_placement_test testBuses mw mv).toOption.map
      (fun r => hasKey r.testCases b) ≠ some false := by
  unfold run_load_placement_test
  cases hbase : run_dc_power_flow get_9bus_system.buses get_9bus_system.branches
      get_9bus_system.generators get_9bus_system.baseMVA with
  | error e => simp [bind, Except.bind, hbase, Except.toOption]
  | ok basePF =>
      simp only [bind, Except.bind, hbase]
      cases hfold : testBuses.foldlM (candidateStep basePF.flows mw mv) [] with
      | error e => simp [hfold, Except.toOption]
      | ok cs =>
          simp only [hfold, Except.toOption, Option.map_some]
          have := (foldCandidates_hasKey basePF.flows mw mv testBuses [] cs hfold).2 b hb
          simp [this]

/-- Witness for C2 amended at candidate list `[5]`. -/
theorem C2_every_candidate_receives_record_witness :
    (run_load_placement_test [5] 50 20).toOption.map
      (fun r => hasKey r.testCases 5) ≠ some false :=
  C2_every_candidate_receives_record [5] 50 20 5 (by decide)

/-- C9 counterexample: a two-bus system whose generator references the
absent bus 99, whose out-of-service branch references the absent bus 98
and whose zero-reactance branch references the absent bus 97 evaluates
without any error: the generator and both branches are silently skipped
rather than rejected with a fatal unknown-bus-reference failure. -/
theorem C9_unknown_refs_evaluate_without_error :
    busIndices [ ⟨1, 3, 0, 0, 0, 0, 1, 1, 0, 345, 1, 11/10, 9/10⟩
               , ⟨2, 1, 10, 0, 0, 0, 1, 1, 0, 345, 1, 11/10, 9/10⟩ ] 99 = none ∧
    busIndices [ ⟨1, 3, 0, 0, 0, 0, 1, 1, 0, 345, 1, 11/10, 9/10⟩
               , ⟨2, 1, 10, 0, 0, 0, 1, 1, 0, 345, 1, 11/10, 9/10⟩ ] 98 = none ∧
    busIndices [ ⟨1, 3, 0, 0, 0, 0, 1, 1, 0, 345, 1, 11/10, 9/10⟩
               , ⟨2, 1, 10, 0, 0, 0, 1, 1, 0, 345, 1, 11/10, 9/10⟩ ] 97 = none ∧
    (run_dc_power_flow
      [ ⟨1, 3, 0, 0, 0, 0, 1, 1, 0, 345, 1, 11/10, 9/10⟩
      , ⟨2, 1, 10, 0, 0, 0, 1, 1, 0, 345, 1, 11/10, 9/10⟩ ]
      [ ⟨1, 2, 0, 1/10, 0, 100, 100, 100, 0, 0, 1, -360, 360⟩
      , ⟨2, 98, 0, 1/10, 0, 100, 100, 100, 0, 0, 0, -360, 360⟩
      , ⟨2, 97, 0, 0, 0, 100, 100, 100, 0, 0, 1, -360, 360⟩ ]
      [ ⟨99, 10, 0, 300, -300, 1, 100, 1, 250, 10, 0, 0, 0⟩ ]
      100).isOk = true := by
  refine ⟨by decide, by decide, by decide, by decide⟩

/-- C9 amended: only an in-service branch with non-zero reactance whose
endpoint is absent from the bus list makes evaluation fail (the dict
KeyError inside susceptance assembly); a generator referencing an absent
bus id is silently dropped from the injection vector, leaving the power
flow result unchanged. -/
theorem C9_unknown_bus_branch_fatal_generator_skipped :
    (∀ (buses : List Bus) (branches : List Branch) (br : Branch),
      br ∈ branches → br.status = 1 → br.x ≠ 0 →
      (busIndices buses br.fromBus = none ∨ busIndices buses br.toBus = none) →
      (build_b_matrix buses branches).isOk = false) ∧
    (∀ (buses : List Bus) (branches : List Branch) (gens1 gens2 : List Gen)
        (g : Gen) (bm : ℚ), busIndices buses g.bus = none →
      run_dc_power_flow buses branches (gens1 ++ g :: gens2) bm =
        run_dc_power_flow buses branches (gens1 ++ gens2) bm) := by
  constructor
  · intro buses branches br hmem h1 h2 h3
    exact bFold_error branches buses _ ⟨br, hmem, h1, h2, h3⟩
  · intro buses branches gens1 gens2 g bm hg
    have hfold : ∀ init : List ℚ,
        (gens1 ++ g :: gens2).foldl (stampGen buses) init =
          (gens1 ++ gens2).foldl (stampGen buses) init := by
      intro init
      rw [List.foldl_append, List.foldl_append, List.foldl_cons,
        stampGen_skip buses _ g hg]
    simp only [run_dc_power_flow, hfold]

/-- Witness for C9 amended: a branch from the absent bus 7 makes assembly
fail, and dropping the generator at the absent bus 99 leaves the result
unchanged. -/
theorem C9_unknown_bus_branch_fatal_generator_skipped_witness :
    (build_b_matrix
      [ ⟨1, 3, 0, 0, 0, 0, 1, 1, 0, 345, 1, 11/10, 9/10⟩
      , ⟨2, 1, 10, 0, 0, 0, 1, 1, 0, 345, 1, 11/10, 9/10⟩ ]
      [ ⟨7, 2, 0, 1/10, 0, 100, 100, 100, 0, 0, 1, -360, 360⟩ ]).isOk = false ∧
    run_dc_power_flow
      [ ⟨1, 3, 0, 0, 0, 0, 1, 1, 0, 345, 1, 11/10, 9/10⟩
      , ⟨2, 1, 10, 0, 0, 0, 1, 1, 0, 345, 1, 11/10, 9/10⟩ ]
      [ ⟨1, 2, 0, 1/10, 0, 100, 100, 100, 0, 0, 1, -360, 360⟩ ]
      ([] ++ ⟨99, 10, 0, 300, -300, 1, 100, 1, 250, 10, 0, 0, 0⟩ ::
        [ ⟨1, 5, 0, 300, -300, 1, 100, 1, 250, 10, 0, 0, 0⟩ ]) 100 =
    run_dc_power_flow
      [ ⟨1, 3, 0, 0, 0, 0, 1, 1, 0, 345, 1, 11/10, 9/10⟩
      , ⟨2, 1, 10, 0, 0, 0, 1, 1, 0, 345, 1, 11/10, 9/10⟩ ]
      [ ⟨1, 2, 0, 1/10, 0, 100, 100, 100, 0, 0, 1, -360, 360⟩ ]
      ([] ++ [ ⟨1, 5, 0, 300, -300, 1, 100, 1, 250, 10, 0, 0, 0⟩ ]) 100 :=
  ⟨C9_unknown_bus_branch_fatal_generator_skipped.1 _ _
      ⟨7, 2, 0, 1/10, 0, 100, 100, 100, 0, 0, 1, -360, 360⟩ (by decide) (by decide)
      (by decide) (Or.inl (by decide)),
   C9_unknown_bus_branch_fatal_generator_skipped.2 _ _ _ _ _ 100 (by decide)⟩

/-- C3 counterexample: for the single candidate bus 5 under the default
load the clean set is empty - the only candidate carries a
generator-capacity issue - yet the Ranking Policy recommends bus 5
instead of reporting that no bus can be recommended: the recommendation
gate tests line violations only. -/
theorem C3_flagged_candidate_still_recommended :
    ((run_load_placement_test [5] 50 20).bind
        (fun tr => recommend_load_placement tr)).toOption.map
      (fun r => (r.outcome,
        r.rankedBuses.map (fun e => (e.busId, e.hasViolations, e.hasGenCapacityIssues)))) =
    some (Outcome.busRecommended 5, [(5, false, true)]) := by decide

/-- C3 amended: for a non-empty candidate set the Ranking Policy returns
without error, recommends a bus exactly when the top-ranked (minimum
score) candidate has no line violations - generator-capacity issues do
not block the recommendation - and the recommended bus is that
top-ranked candidate; otherwise it reports no recommendation. -/
theorem C3_recommendation_follows_top_ranked (tr : TestResults) (r : RankingResult)
    (top : BusEval) (rest : List BusEval)
    (hok : recommend_load_placement tr = .ok r)
    (hr : r.rankedBuses = top :: rest) :
    (r.outcome = Outcome.noBusRecommended ↔ top.hasViolations = true) ∧
    (top.hasViolations = false → r.outcome = Outcome.busRecommended top.busId) ∧
    (∀ e ∈ r.rankedBuses, top.score ≤ e.score) := by
  obtain ⟨evals, heval, hrank, top', rest', hsort, hout⟩ := recommend_ok tr r hok
  have hts : top' :: rest' = top :: rest := by rw [← hsort, ← hrank, hr]
  injection hts with h1 h2
  rw [h1] at hout
  rw [h1, h2] at hsort
  refine ⟨?_, ?_, ?_⟩
  · rw [hout]
    cases htv : top.hasViolations <;> simp [htv]
  · intro hfalse
    rw [hout, hfalse]
    simp
  · have hp := pairwise_sortByScore evals
    rw [hsort] at hp
    intro e he
    rw [hr] at he
    rcases List.mem_cons.mp he with rfl | he
    · exact le_refl _
    · exact List.rel_of_pairwise_cons hp he

/-- Witness for C3 amended on a one-candidate result set. -/
theorem C3_recommendation_follows_top_ranked_witness :
    (RankingResult.mk [⟨7, false, false, 30, 20, 1, 2, 70⟩]
        (Outcome.busRecommended 7)).outcome = Outcome.noBusRecommended ↔
      (BusEval.mk 7 false false 30 20 1 2 70).hasViolations = true := by
  have h := C3_recommendation_follows_top_ranked
    ⟨[], [(7, ⟨[], [⟨1, 2, 10, 30, 20⟩], 20, ⟨1, 2, 10, 30, 20⟩, false⟩)]⟩
    (RankingResult.mk [⟨7, false, false, 30, 20, 1, 2, 70⟩] (Outcome.busRecommended 7))
    ⟨7, false, false, 30, 20, 1, 2, 70⟩ [] (by decide) (by decide)
  exact h.1

/-- C4 counterexample: candidates 5 and 2 tie with score 1000 under the
default load, and the ranking keeps the evaluation order [5, 2] - the
candidate with the larger bus id stays first because it was encountered
first, where the claim demands [2, 5]. -/
theorem C4_tie_keeps_evaluation_order :
    ((run_load_placement_test [5, 2] 50 20).bind
        (fun tr => recommend_load_placement tr)).toOption.map
      (fun r => r.rankedBuses.map (fun e => (e.busId, e.score))) =
    some [(5, 1000), (2, 1000)] := by decide

/-- C4 amended: candidates of any fixed score appear in the ranking in
exactly their evaluation (insertion) order - Python's stable sort breaks
ties by encounter order, not by bus id. -/
theorem C4_equal_scores_keep_insertion_order (tr : TestResults) (evals : List BusEval)
    (r : RankingResult) (s : ℚ)
    (he : evaluationsOf tr = .ok evals)
    (hok : recommend_load_placement tr = .ok r) :
    r.rankedBuses.filter (fun e => decide (e.score = s)) =
      evals.filter (fun e => decide (e.score = s)) := by
  obtain ⟨evals', heval, hrank, _, _, _, _⟩ := recommend_ok tr r hok
  have hee : evals = evals' := by
    have := he.symm.trans heval
    exact (Except.ok.injEq _ _).mp this
  subst hee
  rw [hrank]
  exact filter_sortByScore s evals

/-- Witness for C4 amended: two clean candidates sharing score 70, listed
9 before 4, stay in that order among score-70 entries. -/
theorem C4_equal_scores_keep_insertion_order_witness :
    (RankingResult.mk
        [⟨9, false, false, 30, 20, 1, 2, 70⟩, ⟨4, false, false, 30, 20, 1, 2, 70⟩]
        (Outcome.busRecommended 9)).rankedBuses.filter
      (fun e => decide (e.score = 70)) =
    [ (⟨9, false, false, 30, 20, 1, 2, 70⟩ : BusEval)
    , ⟨4, false, false, 30, 20, 1, 2, 70⟩ ].filter (fun e => decide (e.score = 70)) :=
  C4_equal_scores_keep_insertion_order
    ⟨[], [ (9, ⟨[], [⟨1, 2, 10, 30, 20⟩], 20, ⟨1, 2, 10, 30, 20⟩, false⟩)
         , (4, ⟨[], [⟨1, 2, 10, 30, 20⟩], 20, ⟨1, 2, 10, 30, 20⟩, false⟩) ]⟩
    [⟨9, false, false, 30, 20, 1, 2, 70⟩, ⟨4, false, false, 30, 20, 1, 2, 70⟩]
    (RankingResult.mk
      [⟨9, false, false, 30, 20, 1, 2, 70⟩, ⟨4, false, false, 30, 20, 1, 2, 70⟩]
      (Outcome.busRecommended 9)) 70 (by decide) (by decide)

/-- C5 counterexample: a clean candidate whose loading changes are -50 and
+10 has largest-magnitude change -50 (the stored most-affected line) but
stored signed maximum change +10; the Ranking Policy scores it
50 + |+10| x 2 = 70, not the claimed 50 + |-50| x 2 = 150. -/
theorem C5_score_uses_signed_max_change :
    (recommend_load_placement
        ⟨[], [(3, ⟨[], [⟨1, 2, 60, 10, -50⟩, ⟨2, 3, 40, 50, 10⟩], 10,
                  ⟨1, 2, 60, 10, -50⟩, false⟩)]⟩).toOption.map
      (fun r => r.rankedBuses.map (fun e => (e.busId, e.score, e.maxLineLoading))) =
      some [(3, 70, 50)] ∧
    ((70 : ℚ) ≠ 50 + |(-50 : ℚ)| * 2) := by
  refine ⟨by decide, by decide⟩

/-- C5 amended: the score equals the fixed penalty 1000 when the candidate
has line violations or generator-capacity issues, and otherwise equals
the maximum new loading plus 2 x the absolute value of the stored
`max_loading_change` - the signed maximum of the per-branch changes,
which coincides with the largest-magnitude change only when the latter
is non-negative. -/
theorem C5_score_formula (p : Int × CandidateResult) (e : BusEval)
    (h : evalOfCase p = .ok e) :
    e.score = if p.2.violations.length > 0 ∨ p.2.genCapacityExceeded = true then 1000
              else e.maxLineLoading + |p.2.maxLoadingChange| * 2 := by
  unfold evalOfCase at h
  simp only [bind, Except.bind] at h
  split at h
  · exact absurd h (by simp)
  · rename_i ml hml
    simp only [pure, Except.pure, Except.ok.injEq] at h
    subst h
    by_cases hv : p.2.violations.length > 0 <;>
      by_cases hg : p.2.genCapacityExceeded = true <;>
      simp [hv, hg]

/-- Witness for C5 amended on a clean candidate record. -/
theorem C5_score_formula_witness :
    (BusEval.mk 3 false false 50 10 1 2 70).score =
      if ((3 : Int), (CandidateResult.mk [] [⟨1, 2, 60, 10, -50⟩, ⟨2, 3, 40, 50, 10⟩] 10
            ⟨1, 2, 60, 10, -50⟩ false)).2.violations.length > 0 ∨
         ((3 : Int), (CandidateResult.mk [] [⟨1, 2, 60, 10, -50⟩, ⟨2, 3, 40, 50, 10⟩] 10
            ⟨1, 2, 60, 10, -50⟩ false)).2.genCapacityExceeded = true then 1000
      else (BusEval.mk 3 false false 50 10 1 2 70).maxLineLoading +
        |((3 : Int), (CandidateResult.mk [] [⟨1, 2, 60, 10, -50⟩, ⟨2, 3, 40, 50, 10⟩] 10
            ⟨1, 2, 60, 10, -50⟩ false)).2.maxLoadingChange| * 2 :=
  C5_score_formula
    (3, CandidateResult.mk [] [⟨1, 2, 60, 10, -50⟩, ⟨2, 3, 40, 50, 10⟩] 10
      ⟨1, 2, 60, 10, -50⟩ false)
    (BusEval.mk 3 false false 50 10 1 2 70) (by decide)

/-- C6: when every in-service branch has non-zero reactance and both
endpoints in the bus list, susceptance assembly succeeds and yields a
symmetric matrix whose every row sums to zero over the bus range; the
per-branch stamp of +1/x on both diagonal and -1/x on both off-diagonal
entries is the definition `bStampBranch` itself, and a branch that is
out of service or has zero reactance contributes nothing. -/
theorem C6_b_matrix_symmetric_rows_sum_zero (buses : List Bus) (branches : List Branch)
    (hyp : ∀ br ∈ branches, br.status = 1 →
      br.x ≠ 0 ∧ (busIndices buses br.fromBus).isSome ∧ (busIndices buses br.toBus).isSome) :
    (∃ B, build_b_matrix buses branches = .ok B ∧
      (∀ i j, B i j = B j i) ∧
      (∀ i, ∑ j ∈ Finset.range buses.length, B i j = 0)) ∧
    (∀ (B0 : Nat → Nat → ℚ) (br : Branch), ¬(br.status = 1 ∧ br.x ≠ 0) →
      bStampBranch buses B0 br = .ok B0) := by
  constructor
  · exact bFold_inv branches buses (fun _ _ => 0) hyp (fun i j => rfl)
      (fun i => Finset.sum_const_zero)
  · intro B0 br hbr
    rw [bStampBranch, if_neg hbr]

/-- Witness for C6 at the 9-bus system. -/
theorem C6_b_matrix_symmetric_rows_sum_zero_witness :
    (∃ B, build_b_matrix get_9bus_system.buses get_9bus_system.branches = .ok B ∧
      (∀ i j, B i j = B j i) ∧
      (∀ i, ∑ j ∈ Finset.range get_9bus_system.buses.length, B i j = 0)) ∧
    (∀ (B0 : Nat → Nat → ℚ) (br : Branch), ¬(br.status = 1 ∧ br.x ≠ 0) →
      bStampBranch get_9bus_system.buses B0 br = .ok B0) :=
  C6_b_matrix_symmetric_rows_sum_zero get_9bus_system.buses get_9bus_system.branches
    (by decide)

/-- C7: every flow record of the DC solver carries
loading% = |flow| / rating x 100 when the rating is positive and 0 when
the rating is non-positive, hence a non-negative loading; a record with
rating ≤ 0 therefore never enters the violation list at the default
threshold 100, and the violation list is exactly the subset of records
whose loading exceeds the threshold. -/
theorem C7_loading_formula_and_violations :
    (∀ (buses : List Bus) (branches : List Branch) (gens : List Gen) (bm : ℚ)
        (res : PFResult), run_dc_power_flow buses branches gens bm = .ok res →
      ∀ f ∈ res.flows,
        f.loadingPercent = (if f.limitMW > 0 then |f.flowMW| / f.limitMW * 100 else 0) ∧
        0 ≤ f.loadingPercent ∧
        (f.limitMW ≤ 0 → f ∉ check_line_violations res.flows 100)) ∧
    (∀ (flows : List FlowRec) (tol : ℚ),
      check_line_violations flows tol = flows.filter (fun f => f.loadingPercent > tol)) := by
  constructor
  · intro buses branches gens bm res hrun f hf
    obtain ⟨theta, hc⟩ := run_dc_power_flow_flows buses branches gens bm res hrun
    have hform := collectFlows_loading buses theta bm branches res.flows hc f hf
    refine ⟨hform, ?_, ?_⟩
    · rw [hform]
      split
      · positivity
      · exact le_refl 0
    · intro hlim hmem
      have h0 : f.loadingPercent = 0 := by
        rw [hform, if_neg (not_lt.mpr hlim)]
      have := (List.mem_filter.mp hmem).2
      rw [h0] at this
      exact absurd (of_decide_eq_true this) (by norm_num)
  · intro flows tol
    rfl

/-- Witness for C7 on a two-bus system with a rated and an unrated
parallel branch. -/
theorem C7_loading_formula_and_violations_witness :
    ∀ f ∈ (PFResult.mk [0, -1/150]
        [ ⟨1, 2, 20/3, 100, 20/3⟩, ⟨2, 1, -10/3, 0, 0⟩ ]).flows,
      f.loadingPercent = (if f.limitMW > 0 then |f.flowMW| / f.limitMW * 100 else 0) ∧
      0 ≤ f.loadingPercent ∧
      (f.limitMW ≤ 0 →
        f ∉ check_line_violations (PFResult.mk [0, -1/150]
          [ ⟨1, 2, 20/3, 100, 20/3⟩, ⟨2, 1, -10/3, 0, 0⟩ ]).flows 100) :=
  C7_loading_formula_and_violations.1
    [ ⟨1, 3, 0, 0, 0, 0, 1, 1, 0, 345, 1, 11/10, 9/10⟩
    , ⟨2, 1, 10, 0, 0, 0, 1, 1, 0, 345, 1, 11/10, 9/10⟩ ]
    [ ⟨1, 2, 0, 1/10, 0, 100, 100, 100, 0, 0, 1, -360, 360⟩
    , ⟨2, 1, 0, 1/5, 0, 0, 0, 0, 0, 0, 1, -360, 360⟩ ]
    [ ⟨1, 10, 0, 300, -300, 1, 100, 1, 250, 10, 0, 0, 0⟩ ] 100
    (PFResult.mk [0, -1/150] [ ⟨1, 2, 20/3, 100, 20/3⟩, ⟨2, 1, -10/3, 0, 0⟩ ])
    (by decide)

/-- C8: adding a placement-candidate load to the first bus carrying the
target id increases that bus's Pd by the MW amount and its Qd by the
MVAr amount, leaves its other fields and all other buses unchanged, and
(the input list being a value) never mutates the original. -/
theorem C8_add_new_load_additive (pre post : List Bus) (b : Bus) (busId : Int)
    (mw mv : ℚ) (hpre : ∀ p ∈ pre, p.busId ≠ busId) (hb : b.busId = busId) :
    add_new_load (pre ++ b :: post) busId mw mv =
      pre ++ { b with pd := b.pd + mw, qd := b.qd + mv } :: post :=
  add_new_load_found pre post b busId mw mv hpre hb

/-- Witness for C8 at the 9-bus system, bus 5, 50 MW / 20 MVAr. -/
theorem C8_add_new_load_additive_witness :
    add_new_load
        ([ ⟨1, 3, 0, 0, 0, 0, 1, 1, 0, 345, 1, 11/10, 9/10⟩
         , ⟨2, 2, 0, 0, 0, 0, 1, 1, 0, 345, 1, 11/10, 9/10⟩
         , ⟨3, 2, 0, 0, 0, 0, 1, 1, 0, 345, 1, 11/10, 9/10⟩
         , ⟨4, 1, 0, 0, 0, 0, 1, 1, 0, 345, 1, 11/10, 9/10⟩ ] ++
         ⟨5, 1, 90, 30, 0, 0, 1, 1, 0, 345, 1, 11/10, 9/10⟩ ::
         [ ⟨6, 1, 0, 0, 0, 0, 1, 1, 0, 345, 1, 11/10, 9/10⟩ ]) 5 50 20 =
      [ ⟨1, 3, 0, 0, 0, 0, 1, 1, 0, 345, 1, 11/10, 9/10⟩
      , ⟨2, 2, 0, 0, 0, 0, 1, 1, 0, 345, 1, 11/10, 9/10⟩
      , ⟨3, 2, 0, 0, 0, 0, 1, 1, 0, 345, 1, 11/10, 9/10⟩
      , ⟨4, 1, 0, 0, 0, 0, 1, 1, 0, 345, 1, 11/10, 9/10⟩ ] ++
      ⟨5, 1, 140, 50, 0, 0, 1, 1, 0, 345, 1, 11/10, 9/10⟩ ::
      [ ⟨6, 1, 0, 0, 0, 0, 1, 1, 0, 345, 1, 11/10, 9/10⟩ ] := by
  have h := C8_add_new_load_additive
    [ ⟨1, 3, 0, 0, 0, 0, 1, 1, 0, 345, 1, 11/10, 9/10⟩
    , ⟨2, 2, 0, 0, 0, 0, 1, 1, 0, 345, 1, 11/10, 9/10⟩
    , ⟨3, 2, 0, 0, 0, 0, 1, 1, 0, 345, 1, 11/10, 9/10⟩
    , ⟨4, 1, 0, 0, 0, 0, 1, 1, 0, 345, 1, 11/10, 9/10⟩ ]
    [ ⟨6, 1, 0, 0, 0, 0, 1, 1, 0, 345, 1, 11/10, 9/10⟩ ]
    ⟨5, 1, 90, 30, 0, 0, 1, 1, 0, 345, 1, 11/10, 9/10⟩ 5 50 20 (by decide) (by decide)
  exact h.trans (by decide)

/-- C10: adding a load for a bus id absent from the bus list raises no
error and returns a list equal element for element to the input. -/
theorem C10_add_new_load_unknown_bus_noop (busData : List Bus) (busId : Int)
    (mw mv : ℚ) (h : ∀ b ∈ busData, b.busId ≠ busId) :
    add_new_load busData busId mw mv = busData :=
  add_new_load_not_found busData busId mw mv h

/-- Witness for C10: bus id 42 is not in the 9-bus system. -/
theorem C10_add_new_load_unknown_bus_noop_witness :
    add_new_load get_9bus_system.buses 42 50 20 = get_9bus_system.buses :=
  C10_add_new_load_unknown_bus_noop get_9bus_system.buses 42 50 20 (by decide)

end LoadPlacement
